import Mathlib

/-!
Verification development for the municipality identity-resolution and
config-synthesis pipeline (querido-diario-workers helper scripts).

Strings are modelled as lists of characters.  The Python standard-library
operations used by the scripts (unicodedata.normalize, unicodedata.category,
unicodedata.combining, str.upper, str.lower, str.split, str.strip, str.join
and the two regular-expression substitutions) are modelled as executable
functions on a documented fragment of Unicode: the ASCII range together with
the precomposed accented Latin letters that occur in Brazilian municipality
names and their combining marks, plus the two compatibility characters
U+00AA and U+00BA that witness the NFD / NFKD distinction.  Outside this
fragment every character is treated as inert (no decomposition, no case
mapping, not a combining mark), matching the real behaviour of the library
on the characters the pipeline actually meets.
-/

/-- Combining acute accent U+0301. -/
def markAcute : Char := Char.ofNat 769

/-- Combining grave accent U+0300. -/
def markGrave : Char := Char.ofNat 768

/-- Combining circumflex U+0302. -/
def markCirc : Char := Char.ofNat 770

/-- Combining tilde U+0303. -/
def markTilde : Char := Char.ofNat 771

/-- Combining diaeresis U+0308. -/
def markDiaer : Char := Char.ofNat 776

/-- Combining cedilla U+0327. -/
def markCedilla : Char := Char.ofNat 807

/-- Characters of general category Mn in our fragment (the combining marks
produced by canonical decomposition of the accented letters). -/
def mnChars : List Char :=
  [markAcute, markGrave, markCirc, markTilde, markDiaer, markCedilla]

/-- Model of: unicodedata.category(c) == 'Mn'. -/
def isMn (c : Char) : Bool := decide (c ∈ mnChars)

/-- Characters with nonzero canonical combining class in our fragment;
model of the domain where unicodedata.combining(c) != 0. -/
def combiningChars : List Char :=
  [markAcute, markGrave, markCirc, markTilde, markDiaer, markCedilla]

/-- Model of: unicodedata.combining(c) != 0. -/
def isCombining (c : Char) : Bool := decide (c ∈ combiningChars)

/-- Canonical decompositions (NFD) of the precomposed accented Latin letters
of the fragment. -/
def nfdTable : List (Char × List Char) :=
  [ ('á', ['a', markAcute]), ('à', ['a', markGrave]),
    ('â', ['a', markCirc]), ('ã', ['a', markTilde]),
    ('é', ['e', markAcute]), ('ê', ['e', markCirc]),
    ('í', ['i', markAcute]),
    ('ó', ['o', markAcute]), ('ô', ['o', markCirc]), ('õ', ['o', markTilde]),
    ('ú', ['u', markAcute]), ('ü', ['u', markDiaer]),
    ('ç', ['c', markCedilla]),
    ('Á', ['A', markAcute]), ('À', ['A', markGrave]),
    ('Â', ['A', markCirc]), ('Ã', ['A', markTilde]),
    ('É', ['E', markAcute]), ('Ê', ['E', markCirc]),
    ('Í', ['I', markAcute]),
    ('Ó', ['O', markAcute]), ('Ô', ['O', markCirc]), ('Õ', ['O', markTilde]),
    ('Ú', ['U', markAcute]), ('Ü', ['U', markDiaer]),
    ('Ç', ['C', markCedilla]) ]

/-- Compatibility-only decompositions: the feminine and masculine ordinal
indicators U+00AA and U+00BA decompose under NFKD but not under NFD. -/
def nfkdTable : List (Char × List Char) :=
  ('ª', ['a']) :: ('º', ['o']) :: nfdTable

/-- Model of unicodedata.normalize with form NFD, per character. -/
def nfdChar (c : Char) : List Char :=
  match nfdTable.lookup c with
  | some l => l
  | none => [c]

/-- Model of unicodedata.normalize with form NFKD, per character. -/
def nfkdChar (c : Char) : List Char :=
  match nfkdTable.lookup c with
  | some l => l
  | none => [c]

/-- Case mapping str.upper, per character, on the fragment. -/
def upperTable : List (Char × Char) :=
  [ ('a', 'A'), ('b', 'B'), ('c', 'C'), ('d', 'D'), ('e', 'E'), ('f', 'F'),
    ('g', 'G'), ('h', 'H'), ('i', 'I'), ('j', 'J'), ('k', 'K'), ('l', 'L'),
    ('m', 'M'), ('n', 'N'), ('o', 'O'), ('p', 'P'), ('q', 'Q'), ('r', 'R'),
    ('s', 'S'), ('t', 'T'), ('u', 'U'), ('v', 'V'), ('w', 'W'), ('x', 'X'),
    ('y', 'Y'), ('z', 'Z'),
    ('á', 'Á'), ('à', 'À'), ('â', 'Â'), ('ã', 'Ã'), ('é', 'É'), ('ê', 'Ê'),
    ('í', 'Í'), ('ó', 'Ó'), ('ô', 'Ô'), ('õ', 'Õ'), ('ú', 'Ú'), ('ü', 'Ü'),
    ('ç', 'Ç') ]

/-- Case mapping str.lower, per character, on the fragment. -/
def lowerTable : List (Char × Char) :=
  [ ('A', 'a'), ('B', 'b'), ('C', 'c'), ('D', 'd'), ('E', 'e'), ('F', 'f'),
    ('G', 'g'), ('H', 'h'), ('I', 'i'), ('J', 'j'), ('K', 'k'), ('L', 'l'),
    ('M', 'm'), ('N', 'n'), ('O', 'o'), ('P', 'p'), ('Q', 'q'), ('R', 'r'),
    ('S', 's'), ('T', 't'), ('U', 'u'), ('V', 'v'), ('W', 'w'), ('X', 'x'),
    ('Y', 'y'), ('Z', 'z'),
    ('Á', 'á'), ('À', 'à'), ('Â', 'â'), ('Ã', 'ã'), ('É', 'é'), ('Ê', 'ê'),
    ('Í', 'í'), ('Ó', 'ó'), ('Ô', 'ô'), ('Õ', 'õ'), ('Ú', 'ú'), ('Ü', 'ü'),
    ('Ç', 'ç') ]

/-- Model of str.upper applied to one character. -/
def pyUpper (c : Char) : Char :=
  match upperTable.lookup c with
  | some u => u
  | none => c

/-- Model of str.lower applied to one character. -/
def pyLower (c : Char) : Char :=
  match lowerTable.lookup c with
  | some u => u
  | none => c

/-- Model of the Python whitespace class used by str.split, str.strip and
the regular-expression class backslash-s: space, tab, newline, carriage
return, vertical tab and form feed. -/
def isPySpace (c : Char) : Bool :=
  c = ' ' || c = '\t' || c = '\n' || c = '\x0d' ||
  c = Char.ofNat 11 || c = Char.ofNat 12

/-- Characters kept by the substitution re.sub of the class
complement-of-[A-Z0-9 and whitespace] with the empty string. -/
def keepUpper (c : Char) : Bool := c.isUpper || c.isDigit || isPySpace c

/-- Worker for str.split: the accumulator holds the reversed characters of
the word currently being read. -/
def pySplitAux : List Char → List Char → List (List Char)
  | [], acc => if acc = [] then [] else [acc.reverse]
  | c :: cs, acc =>
    if isPySpace c then
      if acc = [] then pySplitAux cs [] else acc.reverse :: pySplitAux cs []
    else pySplitAux cs (c :: acc)

/-- Model of str.split with no arguments: maximal runs of non-whitespace
characters, in order; whitespace is discarded. -/
def pySplit (s : List Char) : List (List Char) := pySplitAux s []

/-- Model of joining a list of words with a single space character. -/
def pyJoin : List (List Char) → List Char
  | [] => []
  | [w] => w
  | w :: ws => w ++ ' ' :: pyJoin ws

/-- Model of removing trailing whitespace (the right half of str.strip). -/
def rstrip : List Char → List Char
  | [] => []
  | c :: cs =>
    match rstrip cs with
    | [] => if isPySpace c then [] else [c]
    | r => c :: r

/-- Model of str.strip with no arguments: drop leading and trailing
whitespace. -/
def pyStrip (s : List Char) : List Char :=
  rstrip (s.dropWhile isPySpace)

/-- Worker for the substitution re.sub of one-or-more-whitespace with a
single space: the flag records whether the previous character was
whitespace (so the current run has already emitted its space). -/
def collapseAux : Bool → List Char → List Char
  | _, [] => []
  | prev, c :: cs =>
    if isPySpace c then
      if prev then collapseAux true cs else ' ' :: collapseAux true cs
    else c :: collapseAux false cs

/-- Model of re.sub replacing each maximal whitespace run by one space. -/
def pyCollapse (s : List Char) : List Char := collapseAux false s

namespace CreateAmmMt

/-- Embedding of normalize_name from create-amm-mt-config.py: NFD, strip
category-Mn marks, uppercase, delete characters outside A-Z 0-9 and
whitespace, then split and rejoin with single spaces. -/
def normalize_name (name : List Char) : List Char :=
  let decomposed := name.flatMap nfdChar
  let stripped := decomposed.filter (fun c => !isMn c)
  let cleaned := (stripped.map pyUpper).filter keepUpper
  pyJoin (pySplit cleaned)

end CreateAmmMt

namespace CreateAam

/-- Embedding of normalize_name from create-aam-config.py (textually the
same function as in create-amm-mt-config.py). -/
def normalize_name (name : List Char) : List Char :=
  let decomposed := name.flatMap nfdChar
  let stripped := decomposed.filter (fun c => !isMn c)
  let cleaned := (stripped.map pyUpper).filter keepUpper
  pyJoin (pySplit cleaned)

end CreateAam

namespace CreateDiarioBa

/-- Embedding of normalize_name from create-diario-ba-config.py (textually
the same function as in create-amm-mt-config.py). -/
def normalize_name (name : List Char) : List Char :=
  let decomposed := name.flatMap nfdChar
  let stripped := decomposed.filter (fun c => !isMn c)
  let cleaned := (stripped.map pyUpper).filter keepUpper
  pyJoin (pySplit cleaned)

end CreateDiarioBa

namespace CreateDomsc

/-- Embedding of normalize_name from create-domsc-config.py: NFKD, strip
characters with nonzero combining class, lowercase, strip the ends and
collapse internal whitespace runs to single spaces. -/
def normalize_name (name : List Char) : List Char :=
  let nfkd := name.flatMap nfkdChar
  let name_without_accents := nfkd.filter (fun c => !isCombining c)
  pyCollapse (pyStrip (name_without_accents.map pyLower))

end CreateDomsc

namespace CreateAgm

/-- Embedding of normalize_name from create-agm-config.py (textually the
same function as in create-domsc-config.py). -/
def normalize_name (name : List Char) : List Char :=
  let nfkd := name.flatMap nfkdChar
  let name_without_accents := nfkd.filter (fun c => !isCombining c)
  pyCollapse (pyStrip (name_without_accents.map pyLower))

end CreateAgm

namespace FixDomsc

/-- Embedding of normalize_name from fix-domsc-names.py (textually the
same function as in create-domsc-config.py). -/
def normalize_name (name : List Char) : List Char :=
  let nfkd := name.flatMap nfkdChar
  let name_without_accents := nfkd.filter (fun c => !isCombining c)
  pyCollapse (pyStrip (name_without_accents.map pyLower))

end FixDomsc

example : CreateAmmMt.normalize_name ("Santa  Cruz-Oeste").toList =
    ("SANTA CRUZOESTE").toList := by decide

example : CreateDomsc.normalize_name ("  São  José ").toList =
    ("sao jose").toList := by decide

example : CreateAmmMt.normalize_name ['a'] = ['A'] := by decide

example : CreateDomsc.normalize_name ['a'] = ['a'] := by decide

/-- Decimal string form of a natural number; model of the Python str
function applied to an int. -/
def strOfNat (n : Nat) : List Char := (Nat.repr n).toList

/-- Record of the authoritative IBGE registry files consumed by the
create-aam and create-amm-mt scripts: fields id and nome. -/
structure IbgeMun where
  id : Nat
  nome : List Char
deriving DecidableEq

/-- Persisted configuration record shape shared by all the scripts: the
publisher-specific config object is modelled as an association list of
string keys to string values. -/
structure ConfigEntry where
  id : List Char
  name : List Char
  stateCode : List Char
  territoryId : List Char
  spiderType : List Char
  config : List (List Char × List Char)
deriving DecidableEq

/-- Coverage-exclusivity invariant: no two entries of the aggregate share
both stateCode and territoryId. -/
def CoverageExclusive (l : List ConfigEntry) : Prop :=
  l.Pairwise (fun a b => ¬(a.stateCode = b.stateCode ∧ a.territoryId = b.territoryId))

namespace CreateAam

/-- Set of territoryIds of the entries of the existing aggregate whose
stateCode is AM, from create-aam-config.py lines 28-31. -/
def existing_am_ids (sigpub_data : List ConfigEntry) : List (List Char) :=
  (sigpub_data.filter (fun c => decide (c.stateCode = ("AM").toList))).map
    (fun c => c.territoryId)

/-- Configuration record built for one AM municipality (lines 49-60 of
create-aam-config.py), entityId being the placeholder zero. -/
def mkConfig (mun : IbgeMun) : ConfigEntry :=
  { id := ("am_").toList ++ strOfNat mun.id
  , name := mun.nome
  , stateCode := ("AM").toList
  , territoryId := strOfNat mun.id
  , spiderType := ("sigpub").toList
  , config := [ (("type").toList, ("sigpub").toList)
              , (("url").toList, ("https://www.diariomunicipal.com.br/aam/").toList)
              , (("entityId").toList, ("0").toList) ] }

/-- Fresh configurations appended by one run: each IBGE municipality whose
territoryId is not already covered for AM (lines 39-61). -/
def new_configs (sigpub_data : List ConfigEntry) (ibge_data : List IbgeMun) :
    List ConfigEntry :=
  ibge_data.filterMap (fun mun =>
    if strOfNat mun.id ∈ existing_am_ids sigpub_data then none
    else some (mkConfig mun))

/-- One merge run: the aggregate is extended with the fresh configurations
(line 64, sigpub_data.extend). -/
def mergeRun (sigpub_data : List ConfigEntry) (ibge_data : List IbgeMun) :
    List ConfigEntry :=
  sigpub_data ++ new_configs sigpub_data ibge_data

end CreateAam

namespace CreateAmmMt

/-- Set of territoryIds covered by SIGPub for MT, from
create-amm-mt-config.py lines 37-40. -/
def sigpub_mt_ids (sigpub_data : List ConfigEntry) : List (List Char) :=
  (sigpub_data.filter (fun c => decide (c.stateCode = ("MT").toList))).map
    (fun c => c.territoryId)

/-- Site-facing city name: uppercase then NFD then strip category-Mn marks
(lines 56-58). -/
def cityNameOf (nome : List Char) : List Char :=
  ((nome.map pyUpper).flatMap nfdChar).filter (fun c => !isMn c)

/-- Configuration record built for one MT municipality (lines 60-70). -/
def mkConfig (mun : IbgeMun) : ConfigEntry :=
  { id := ("mt_").toList ++ strOfNat mun.id
  , name := mun.nome
  , stateCode := ("MT").toList
  , territoryId := strOfNat mun.id
  , spiderType := ("amm-mt").toList
  , config := [ (("url").toList, ("https://amm.diariomunicipal.org/").toList)
              , (("cityName").toList, cityNameOf mun.nome) ] }

/-- Fresh AMM-MT configurations of one run: IBGE municipalities not already
covered by SIGPub for MT (lines 46-71). -/
def configs (sigpub_data : List ConfigEntry) (ibge_data : List IbgeMun) :
    List ConfigEntry :=
  ibge_data.filterMap (fun mun =>
    if strOfNat mun.id ∈ sigpub_mt_ids sigpub_data then none
    else some (mkConfig mun))

/-- Combined coverage after an AMM-MT run: the existing aggregate together
with the freshly written AMM-MT configurations. -/
def combined (sigpub_data : List ConfigEntry) (ibge_data : List IbgeMun) :
    List ConfigEntry :=
  sigpub_data ++ configs sigpub_data ibge_data

end CreateAmmMt

namespace TestSigpubConfig

/-- JSON scalar values a territoryId field can hold; the isinstance check
of the validator distinguishes strings from other values. -/
inductive PyVal where
  | str (s : List Char)
  | int (n : Nat)
deriving DecidableEq

/-- Publisher config sub-object as the validator reads it: only the keys
it inspects are modelled, each possibly absent. -/
structure PyCfg where
  type : Option (List Char)
  url : Option (List Char)
  entityId : Option (List Char)
deriving DecidableEq

/-- One record of the aggregate as the validator reads it: every field may
be absent, matching the membership tests of test_sigpub_config.py. -/
structure PyEntry where
  id : Option (List Char)
  name : Option (List Char)
  territoryId : Option PyVal
  spiderType : Option (List Char)
  startDate : Option (List Char)
  config : Option PyCfg
deriving DecidableEq

/-- Validation errors, one constructor per append site of
test_sigpub_config.py, in source order: missing required field, invalid
territoryId (carrying the id of the record, line 23), wrong spiderType
(line 27), wrong config.type (line 31), missing config.url (line 35). -/
inductive VError where
  | missingField (idx : Nat) (field : List Char)
  | invalidTerritoryId (idx : Nat) (id : Option (List Char)) (val : PyVal)
  | wrongSpiderType (idx : Nat) (found : Option (List Char))
  | wrongConfigType (idx : Nat)
  | missingUrl (idx : Nat)
deriving DecidableEq

/-- Required-field list of line 11 of test_sigpub_config.py. -/
def required_fields : List (List Char) :=
  [ ("id").toList, ("name").toList, ("territoryId").toList,
    ("spiderType").toList, ("startDate").toList, ("config").toList ]

/-- Membership test for a field name on a record. -/
def hasField (e : PyEntry) (f : List Char) : Bool :=
  if f = ("id").toList then e.id.isSome
  else if f = ("name").toList then e.name.isSome
  else if f = ("territoryId").toList then e.territoryId.isSome
  else if f = ("spiderType").toList then e.spiderType.isSome
  else if f = ("startDate").toList then e.startDate.isSome
  else if f = ("config").toList then e.config.isSome
  else false

/-- Check whether a territoryId value passes line 22: it must be a string
of length exactly 7 (no digit test is performed by the code). -/
def tidOk (v : PyVal) : Bool :=
  match v with
  | .str s => s.length = 7
  | .int _ => false

/-- Errors produced for one record, in the order the script appends them:
required-field loop, territoryId shape, spiderType, config.type,
config.url. -/
def checkConfig (idx : Nat) (e : PyEntry) : List VError :=
  (required_fields.filterMap (fun f =>
      if hasField e f then none else some (.missingField idx f)))
  ++ (match e.territoryId with
      | some v => if tidOk v then [] else [.invalidTerritoryId idx e.id v]
      | none => [])
  ++ (if e.spiderType = some (("sigpub").toList) then []
      else [.wrongSpiderType idx e.spiderType])
  ++ (match e.config with
      | some cfg =>
        (if cfg.type = some (("sigpub").toList) then [] else [.wrongConfigType idx])
        ++ (if cfg.url.isSome then [] else [.missingUrl idx])
      | none => [])

/-- Errors accumulated over the whole aggregate starting at a given index;
the loop of lines 14-35 is validateFrom 0. -/
def validateFrom (i : Nat) : List PyEntry → List VError
  | [] => []
  | e :: rest => checkConfig i e ++ validateFrom (i + 1) rest

/-- Errors for the whole loaded aggregate. -/
def validate (configs : List PyEntry) : List VError := validateFrom 0 configs

/-- Whether an error message references the territoryId field. -/
def refersTid (err : VError) : Bool :=
  match err with
  | .missingField _ f => f = ("territoryId").toList
  | .invalidTerritoryId _ _ _ => true
  | _ => false

end TestSigpubConfig

/-- Assignment into a Python dict modelled on an association list: an
existing binding of the key is overwritten in place, a new key is appended
at the end. -/
def dictInsert {α : Type} : List (List Char × α) → List Char → α → List (List Char × α)
  | [], k, v => [(k, v)]
  | (k₁, v₁) :: rest, k, v =>
    if k₁ = k then (k₁, v) :: rest
    else (k₁, v₁) :: dictInsert rest k v

/-- Dictionary built by iterating assignments d[key m] = val m over the
input list in order, starting from the empty dict. -/
def buildDict {α β : Type} (key : α → List Char) (val : α → β)
    (ms : List α) : List (List Char × β) :=
  ms.foldl (fun d m => dictInsert d (key m) (val m)) []

/-- Registry record of the municipios-brasil.json file as consumed by
create-agm-config.py: official name, IBGE code and state code. -/
structure Municipio where
  nome : List Char
  codigo_ibge : Nat
  codigo_uf : Nat
deriving DecidableEq

namespace CreateAgm

/-- Source-list record scraped from the AGM portal: display name and the
addressing value of the option element. -/
structure AgmMun where
  nome : List Char
  value : List Char
deriving DecidableEq

/-- Lookup dictionary keyed by normalized name, built by the loop of lines
21-24 of create-agm-config.py; a later record with the same key overwrites
the earlier binding. -/
def municipios_go_dict (municipios_go : List Municipio) :
    List (List Char × Municipio) :=
  buildDict (fun m => normalize_name m.nome) (fun m => m) municipios_go

/-- One matched row (lines 40-45): the source name, the registry name, the
registry code and the addressing value. -/
structure MatchedRow where
  nome_agm : List Char
  nome_ibge : List Char
  codigo_ibge : Nat
  value : List Char
deriving DecidableEq

/-- Matching loop of lines 36-47: each source entry is resolved through
the dictionary; hits are collected into matched, misses into unmatched, in
input order. -/
def matchRun (dict : List (List Char × Municipio)) :
    List AgmMun → List MatchedRow × List (List Char)
  | [] => ([], [])
  | m :: rest =>
    let p := matchRun dict rest
    match dict.lookup (normalize_name m.nome) with
    | some m_ibge =>
      (⟨m.nome, m_ibge.nome, m_ibge.codigo_ibge, m.value⟩ :: p.1, p.2)
    | none => (p.1, m.nome :: p.2)

/-- Lexicographic comparison of names, model of the Python string order
used by sorted with the nome_ibge key. -/
def leStr : List Char → List Char → Bool
  | [], _ => true
  | _ :: _, [] => false
  | a :: as, b :: bs => if a = b then leStr as bs else decide (a < b)

/-- Configuration record synthesized for one matched row (lines 60-71). -/
def mkConfig (m : MatchedRow) : ConfigEntry :=
  { id := ("go_").toList ++ strOfNat m.codigo_ibge
  , name := m.nome_ibge
  , stateCode := ("GO").toList
  , territoryId := strOfNat m.codigo_ibge
  , spiderType := ("sigpub").toList
  , config := [ (("url").toList, ("https://www.diariomunicipal.com.br/agm/").toList)
              , (("entityId").toList, m.value) ] }

/-- Synthesis loop of lines 58-71: matched rows sorted by registry name,
each mapped to a configuration record. -/
def sigpub_config (matched : List MatchedRow) : List ConfigEntry :=
  (matched.mergeSort (fun a b => leStr a.nome_ibge b.nome_ibge)).map mkConfig

end CreateAgm

namespace CreateDiarioBa

/-- Value stored in the ibge_map dictionary (lines 27-33): the id and the
official name of the registry record. -/
structure IbgeInfo where
  id : Nat
  nome : List Char
deriving DecidableEq

/-- Source-list record extracted from the site: display text and
addressing value. -/
structure SiteMun where
  text : List Char
  value : List Char
deriving DecidableEq

/-- Lookup dictionary of lines 27-33 of create-diario-ba-config.py. -/
def ibge_map (ibge_data : List IbgeMun) : List (List Char × IbgeInfo) :=
  buildDict (fun m => normalize_name m.nome) (fun m => ⟨m.id, m.nome⟩) ibge_data

/-- Configuration record synthesized for one matched site entry
(lines 51-61). -/
def mkConfig (info : IbgeInfo) (mun : SiteMun) : ConfigEntry :=
  { id := ("ba_").toList ++ strOfNat info.id
  , name := info.nome
  , stateCode := ("BA").toList
  , territoryId := strOfNat info.id
  , spiderType := ("diario-ba").toList
  , config := [ (("url").toList, ("https://www.diariooficialba.com.br/").toList)
              , (("cityName").toList, mun.value) ] }

/-- Matching-and-synthesis loop of lines 43-64: found entries produce a
configuration record, the rest are collected into not_found, in input
order. -/
def matchRun (dict : List (List Char × IbgeInfo)) :
    List SiteMun → List ConfigEntry × List (List Char)
  | [] => ([], [])
  | mun :: rest =>
    let p := matchRun dict rest
    match dict.lookup (normalize_name mun.text) with
    | some info => (mkConfig info mun :: p.1, p.2)
    | none => (p.1, mun.text :: p.2)

end CreateDiarioBa

/-- Membership of the binding returned by an association-list lookup. -/
theorem lookup_mem {α β : Type} [BEq α] [LawfulBEq α] {l : List (α × β)} {k : α}
    {v : β} (h : l.lookup k = some v) : (k, v) ∈ l := by
  obtain ⟨l₁, l₂, rfl, -⟩ := List.lookup_eq_some_iff.mp h
  exact List.mem_append_right _ (List.mem_cons_self _ _)

/-- Lookup misses when no key of the table equals the requested key. -/
theorem lookup_eq_none_of {α β : Type} [BEq α] [LawfulBEq α] {l : List (α × β)}
    {k : α} (h : ∀ p ∈ l, p.1 ≠ k) : l.lookup k = none := by
  rw [List.lookup_eq_none_iff]
  intro p hp
  simpa using fun e => h p hp (by simpa using e.symm)

/-- Mapping under flatMap: each per-character identity gives a global
identity. -/
theorem flatMap_id_of {α : Type} {f : α → List α} {l : List α}
    (h : ∀ c ∈ l, f c = [c]) : l.flatMap f = l := by
  induction l with
  | nil => rfl
  | cons c cs ih =>
    simp only [List.flatMap_cons, h c (List.mem_cons_self c cs)]
    simpa using ih fun d hd => h d (List.mem_cons_of_mem _ hd)

/-- Pointwise-fixed map is the identity. -/
theorem map_id_of {α : Type} {f : α → α} {l : List α}
    (h : ∀ c ∈ l, f c = c) : l.map f = l := by
  induction l with
  | nil => rfl
  | cons c cs ih =>
    simp only [List.map_cons, h c (List.mem_cons_self c cs)]
    simpa using ih fun d hd => h d (List.mem_cons_of_mem _ hd)

/-- C1 counterexample input: the single letter a is normalized to an
uppercase key by the create-amm-mt family and to a lowercase key by the
create-domsc family, so the two call-site families disagree. -/
theorem normalize_families_disagree :
    CreateAmmMt.normalize_name ['a'] ≠ CreateDomsc.normalize_name ['a'] := by
  decide

/-- C1 (amended): the six normalize_name call sites split into two
families.  The uppercase punctuation-stripping function is shared verbatim
by create-amm-mt, create-aam and create-diario-ba, and the lowercase
function is shared verbatim by create-domsc, create-agm and
fix-domsc-names; within each family every call site computes the same key
for every input, but the two families return different keys for the same
name (one uses NFD with uppercasing, the other NFKD with lowercasing). -/
theorem normalize_call_site_families :
    (∀ n : List Char,
      CreateAam.normalize_name n = CreateAmmMt.normalize_name n ∧
      CreateDiarioBa.normalize_name n = CreateAmmMt.normalize_name n ∧
      CreateAgm.normalize_name n = CreateDomsc.normalize_name n ∧
      FixDomsc.normalize_name n = CreateDomsc.normalize_name n) ∧
    CreateAmmMt.normalize_name ['a'] ≠ CreateDomsc.normalize_name ['a'] := by
  exact ⟨fun n => ⟨rfl, rfl, rfl, rfl⟩, by decide⟩

/-- Closed instance of the C1 family equalities at a concrete name. -/
theorem normalize_call_site_families_witness :
    CreateAam.normalize_name (("Cuiabá").toList) =
      CreateAmmMt.normalize_name (("Cuiabá").toList) :=
  (normalize_call_site_families.1 (("Cuiabá").toList)).1

namespace CreateAam

/-- Covered AM ids distribute over appending aggregates. -/
theorem existing_am_ids_append (A B : List ConfigEntry) :
    existing_am_ids (A ++ B) = existing_am_ids A ++ existing_am_ids B := by
  simp [existing_am_ids, List.filter_append]

/-- A municipality not yet covered contributes its territoryId to the
coverage of the freshly built configurations. -/
theorem mem_existing_of_new {A : List ConfigEntry} {ibge : List IbgeMun}
    {mun : IbgeMun} (hm : mun ∈ ibge)
    (hn : strOfNat mun.id ∉ existing_am_ids A) :
    strOfNat mun.id ∈ existing_am_ids (new_configs A ibge) := by
  have hmem : mkConfig mun ∈ new_configs A ibge := by
    rw [new_configs, List.mem_filterMap]
    exact ⟨mun, hm, by rw [if_neg hn]⟩
  rw [existing_am_ids]
  refine List.mem_map.mpr ⟨mkConfig mun, ?_, rfl⟩
  exact List.mem_filter.mpr ⟨hmem, by simp [mkConfig]⟩

end CreateAam

/-- C4: re-running the AAM merge with the same registry batch appends
nothing: the second run builds an empty fresh list, so the aggregate after
the second merge has the same size (indeed is the same list) as after the
first. -/
theorem aam_merge_idempotent (sigpub : List ConfigEntry) (ibge : List IbgeMun) :
    CreateAam.new_configs (CreateAam.mergeRun sigpub ibge) ibge = [] ∧
    (CreateAam.mergeRun (CreateAam.mergeRun sigpub ibge) ibge).length =
      (CreateAam.mergeRun sigpub ibge).length := by
  have hnil : CreateAam.new_configs (CreateAam.mergeRun sigpub ibge) ibge = [] := by
    rw [CreateAam.new_configs, List.filterMap_eq_nil_iff]
    intro mun hm
    have : strOfNat mun.id ∈ CreateAam.existing_am_ids (CreateAam.mergeRun sigpub ibge) := by
      rw [CreateAam.mergeRun, CreateAam.existing_am_ids_append]
      by_cases hc : strOfNat mun.id ∈ CreateAam.existing_am_ids sigpub
      · exact List.mem_append_left _ hc
      · exact List.mem_append_right _ (CreateAam.mem_existing_of_new hm hc)
    rw [if_pos this]
  refine ⟨hnil, ?_⟩
  have h2 : CreateAam.mergeRun (CreateAam.mergeRun sigpub ibge) ibge =
      CreateAam.mergeRun sigpub ibge ++
        CreateAam.new_configs (CreateAam.mergeRun sigpub ibge) ibge := rfl
  rw [h2, hnil, List.append_nil]

/-- Covered (stateCode, territoryId) pairs of an aggregate for a fixed
state, as both merge scripts compute them. -/
def coveredIdsFor (st : List Char) (existing : List ConfigEntry) : List (List Char) :=
  (existing.filter (fun c => decide (c.stateCode = st))).map (fun c => c.territoryId)

/-- Generic coverage-exclusivity preservation for the skip-or-append merge
pattern shared by create-aam and create-amm-mt, under the extra assumption
that the fresh registry batch carries pairwise-distinct territory ids
(the scripts do not extend the covered set while iterating, so duplicates
inside one batch would both be appended). -/
theorem merge_preserves_exclusive (st : List Char) (mk : IbgeMun → ConfigEntry)
    (hstate : ∀ mun, (mk mun).stateCode = st)
    (htid : ∀ mun, (mk mun).territoryId = strOfNat mun.id)
    (existing : List ConfigEntry) (ibge : List IbgeMun)
    (hex : CoverageExclusive existing)
    (hnd : (ibge.map (fun m => strOfNat m.id)).Nodup) :
    CoverageExclusive (existing ++ ibge.filterMap (fun mun =>
      if strOfNat mun.id ∈ coveredIdsFor st existing then none
      else some (mk mun))) := by
  rw [CoverageExclusive, List.pairwise_append]
  refine ⟨hex, ?_, ?_⟩
  · have hpw : ibge.Pairwise (fun a b => strOfNat a.id ≠ strOfNat b.id) :=
      List.pairwise_map.mp hnd
    refine hpw.filterMap _ (fun a b hab x hx y hy => ?_)
    rw [Option.mem_def] at hx hy
    by_cases ha : strOfNat a.id ∈ coveredIdsFor st existing
    · rw [if_pos ha] at hx; exact absurd hx (by simp)
    by_cases hb : strOfNat b.id ∈ coveredIdsFor st existing
    · rw [if_pos hb] at hy; exact absurd hy (by simp)
    rw [if_neg ha, Option.some_inj] at hx
    rw [if_neg hb, Option.some_inj] at hy
    rintro ⟨-, htids⟩
    rw [← hx, ← hy, htid a, htid b] at htids
    exact hab htids
  · intro a ha b hb hcl
    obtain ⟨mun, -, hsome⟩ := List.mem_filterMap.mp hb
    by_cases hc : strOfNat mun.id ∈ coveredIdsFor st existing
    · rw [if_pos hc] at hsome; exact absurd hsome (by simp)
    rw [if_neg hc, Option.some_inj] at hsome
    apply hc
    rw [coveredIdsFor]
    refine List.mem_map.mpr ⟨a, List.mem_filter.mpr ⟨ha, ?_⟩, ?_⟩
    · have : a.stateCode = st := by rw [hcl.1, ← hsome, hstate]
      simpa using this
    · rw [hcl.2, ← hsome, htid]

/-- Registry record used by the C3 counterexample: a duplicated id inside
one fresh batch. -/
def dupMun : IbgeMun := ⟨1, ("Alpha").toList⟩

/-- C3 counterexample: starting from the empty aggregate (which satisfies
coverage exclusivity) and a fresh batch containing the same municipality
twice, the AAM merge appends two entries sharing stateCode AM and
territoryId 1, because the loop checks only the pre-existing coverage and
never extends it during the run. -/
theorem merge_coverage_counterexample :
    CoverageExclusive ([] : List ConfigEntry) ∧
    ¬ CoverageExclusive (CreateAam.mergeRun [] [dupMun, dupMun]) := by
  constructor
  · exact List.Pairwise.nil
  · rw [CoverageExclusive]
    decide

/-- C3 (amended): if the existing aggregate satisfies coverage exclusivity
and the fresh registry batch has pairwise-distinct territory ids, then the
aggregate produced by the AAM merge, and likewise the combined coverage
after an AMM-MT run, contain no two entries sharing both stateCode and
territoryId. -/
theorem merge_coverage_exclusive (existing : List ConfigEntry)
    (ibge : List IbgeMun) (hex : CoverageExclusive existing)
    (hnd : (ibge.map (fun m => strOfNat m.id)).Nodup) :
    CoverageExclusive (CreateAam.mergeRun existing ibge) ∧
    CoverageExclusive (CreateAmmMt.combined existing ibge) := by
  constructor
  · exact merge_preserves_exclusive (("AM").toList) CreateAam.mkConfig
      (fun _ => rfl) (fun _ => rfl) existing ibge hex hnd
  · exact merge_preserves_exclusive (("MT").toList) CreateAmmMt.mkConfig
      (fun _ => rfl) (fun _ => rfl) existing ibge hex hnd

/-- Second registry record for the C3 witness batch. -/
def dupMun2 : IbgeMun := ⟨2, ("Beta").toList⟩

/-- Closed instance of the amended C3 at a concrete aggregate and batch. -/
theorem merge_coverage_exclusive_witness :
    CoverageExclusive ([] : List ConfigEntry) ∧
    (([dupMun, dupMun2].map (fun m => strOfNat m.id)).Nodup) ∧
    CoverageExclusive (CreateAam.mergeRun [] [dupMun, dupMun2]) := by
  refine ⟨List.Pairwise.nil, by decide, ?_⟩
  exact (merge_coverage_exclusive [] [dupMun, dupMun2] List.Pairwise.nil (by decide)).1

/-- Association-list lookup through a cons cell, in if-then-else form. -/
theorem lookup_cons_if {α β : Type} [BEq α] [LawfulBEq α] [DecidableEq α]
    (k₁ k : α) (v : β) (es : List (α × β)) :
    List.lookup k₁ ((k, v) :: es) = if k₁ = k then some v else es.lookup k₁ := by
  rw [List.lookup_cons]
  by_cases h : k₁ = k
  · rw [if_pos h, beq_iff_eq.mpr h]
  · rw [if_neg h, beq_eq_false_iff_ne.mpr h]

/-- Lookup after a dict assignment: the assigned key now yields the new
value, every other key is unaffected. -/
theorem lookup_dictInsert {α : Type} (d : List (List Char × α)) (k k₁ : List Char)
    (v : α) :
    (dictInsert d k v).lookup k₁ = if k₁ = k then some v else d.lookup k₁ := by
  induction d with
  | nil =>
    simp [dictInsert, lookup_cons_if]
  | cons p rest ih =>
    obtain ⟨k₂, v₂⟩ := p
    by_cases h2 : k₂ = k
    · subst h2
      simp only [dictInsert, if_pos rfl, lookup_cons_if]
      by_cases h : k₁ = k₂ <;> simp [h, lookup_cons_if]
    · simp only [dictInsert, if_neg h2, lookup_cons_if, ih]
      by_cases h : k₁ = k₂ <;> by_cases hk : k₁ = k
      · exact absurd (h.symm.trans hk) h2
      · simp [h, hk, h2]
      · rw [if_neg h, if_pos hk, if_pos hk]
      · simp [h, hk]

/-- A nonempty last element survives consing in front. -/
theorem getLast?_cons_of_some {α : Type} {l : List α} {x a : α}
    (h : l.getLast? = some x) : (a :: l).getLast? = some x := by
  cases l with
  | nil => simp at h
  | cons b t => rw [List.getLast?_cons_cons]; exact h

/-- Lookup in a dict built by iterated assignment returns the value of the
last input record bearing the requested key. -/
theorem buildDict_lookup {α β : Type} (key : α → List Char) (val : α → β)
    (ms : List α) (k : List Char) :
    (buildDict key val ms).lookup k =
      ((ms.filter (fun m => decide (key m = k))).getLast?).map val := by
  suffices h : ∀ d : List (List Char × β),
      (ms.foldl (fun d m => dictInsert d (key m) (val m)) d).lookup k =
        match (ms.filter (fun m => decide (key m = k))).getLast? with
        | some m => some (val m)
        | none => d.lookup k by
    rw [buildDict, h []]
    cases hl : (ms.filter (fun m => decide (key m = k))).getLast? <;> simp
  induction ms with
  | nil => intro d; simp
  | cons m rest ih =>
    intro d
    rw [List.foldl_cons, ih (dictInsert d (key m) (val m))]
    by_cases hm : key m = k
    · rw [List.filter_cons_of_pos (by simpa using hm)]
      cases hl : (rest.filter (fun m => decide (key m = k))).getLast? with
      | some x =>
        rw [getLast?_cons_of_some hl]
      | none =>
        have : rest.filter (fun m => decide (key m = k)) = [] :=
          List.getLast?_eq_none_iff.mp hl
        rw [this]
        rw [lookup_dictInsert, if_pos hm.symm]
        rfl
    · rw [List.filter_cons_of_neg (by simpa using hm)]
      cases hl : (rest.filter (fun m => decide (key m = k))).getLast? with
      | some x => rfl
      | none =>
        rw [lookup_dictInsert, if_neg (fun e => hm e.symm)]

/-- C10: dictionary construction is last-wins, hence deterministic.  For
the AGM registry dictionary the binding of any normalized key is exactly
the last registry record in input order whose normalized name equals that
key, and likewise for the Diario-BA id map (whose values are the derived
id-and-name pairs). -/
theorem registry_dict_last_wins :
    (∀ (ms : List Municipio) (k : List Char),
      (CreateAgm.municipios_go_dict ms).lookup k =
        (ms.filter (fun m => decide (CreateAgm.normalize_name m.nome = k))).getLast?) ∧
    (∀ (ms : List IbgeMun) (k : List Char),
      (CreateDiarioBa.ibge_map ms).lookup k =
        ((ms.filter (fun m =>
          decide (CreateDiarioBa.normalize_name m.nome = k))).getLast?).map
            (fun m => (⟨m.id, m.nome⟩ : CreateDiarioBa.IbgeInfo))) := by
  constructor
  · intro ms k
    rw [CreateAgm.municipios_go_dict, buildDict_lookup]
    cases (ms.filter (fun m => decide (CreateAgm.normalize_name m.nome = k))).getLast? <;>
      simp
  · intro ms k
    rw [CreateDiarioBa.ibge_map, buildDict_lookup]

namespace TestSigpubConfig

/-- Field-presence test evaluated at the id field name. -/
theorem hasField_id (e : PyEntry) : hasField e (("id").toList) = e.id.isSome := by
  rw [hasField, if_pos rfl]

/-- Field-presence test evaluated at the name field name. -/
theorem hasField_name (e : PyEntry) : hasField e (("name").toList) = e.name.isSome := by
  rw [hasField, if_neg (by decide), if_pos rfl]

/-- Field-presence test evaluated at the territoryId field name. -/
theorem hasField_tid (e : PyEntry) :
    hasField e (("territoryId").toList) = e.territoryId.isSome := by
  rw [hasField, if_neg (by decide), if_neg (by decide), if_pos rfl]

/-- Field-presence test evaluated at the spiderType field name. -/
theorem hasField_spider (e : PyEntry) :
    hasField e (("spiderType").toList) = e.spiderType.isSome := by
  rw [hasField, if_neg (by decide), if_neg (by decide), if_neg (by decide),
    if_pos rfl]

/-- Field-presence test evaluated at the startDate field name. -/
theorem hasField_start (e : PyEntry) :
    hasField e (("startDate").toList) = e.startDate.isSome := by
  rw [hasField, if_neg (by decide), if_neg (by decide), if_neg (by decide),
    if_neg (by decide), if_pos rfl]

/-- Field-presence test evaluated at the config field name. -/
theorem hasField_config (e : PyEntry) :
    hasField e (("config").toList) = e.config.isSome := by
  rw [hasField, if_neg (by decide), if_neg (by decide), if_neg (by decide),
    if_neg (by decide), if_neg (by decide), if_pos rfl]

/-- One step of the required-field loop, as an append of an if-block. -/
theorem reqErrs_cons (i : Nat) (e : PyEntry) (f : List Char)
    (rest : List (List Char)) :
    List.filterMap (fun f =>
        if hasField e f then none else some (VError.missingField i f)) (f :: rest) =
      (if hasField e f then [] else [VError.missingField i f]) ++
        List.filterMap (fun f =>
          if hasField e f then none else some (VError.missingField i f)) rest := by
  cases h : hasField e f <;> simp [List.filterMap_cons, h]

/-- Unrolled form of the per-record error computation. -/
theorem checkConfig_eq (i : Nat) (e : PyEntry) :
    checkConfig i e =
      ((if e.id.isSome then [] else [VError.missingField i (("id").toList)]) ++
       (if e.name.isSome then [] else [VError.missingField i (("name").toList)]) ++
       (if e.territoryId.isSome then []
        else [VError.missingField i (("territoryId").toList)]) ++
       (if e.spiderType.isSome then []
        else [VError.missingField i (("spiderType").toList)]) ++
       (if e.startDate.isSome then []
        else [VError.missingField i (("startDate").toList)]) ++
       (if e.config.isSome then []
        else [VError.missingField i (("config").toList)])) ++
      (match e.territoryId with
       | some v => if tidOk v then [] else [VError.invalidTerritoryId i e.id v]
       | none => []) ++
      (if e.spiderType = some (("sigpub").toList) then []
       else [VError.wrongSpiderType i e.spiderType]) ++
      (match e.config with
       | some cfg =>
         (if cfg.type = some (("sigpub").toList) then []
          else [VError.wrongConfigType i]) ++
         (if cfg.url.isSome then [] else [VError.missingUrl i])
       | none => []) := by
  rw [checkConfig, required_fields]
  rw [reqErrs_cons, reqErrs_cons, reqErrs_cons, reqErrs_cons, reqErrs_cons,
    reqErrs_cons]
  rw [hasField_id, hasField_name, hasField_tid, hasField_spider, hasField_start,
    hasField_config]
  simp [List.append_assoc]

/-- The per-record errors of a record that misses only territoryId reduce
to the single missing-field error for that record index. -/
theorem checkConfig_missing_tid (i : Nat) (e : PyEntry) (cfg : PyCfg)
    (ht : e.territoryId = none) (hid : e.id.isSome) (hname : e.name.isSome)
    (hspider : e.spiderType = some (("sigpub").toList))
    (hstart : e.startDate.isSome) (hcfg : e.config = some cfg)
    (hcty : cfg.type = some (("sigpub").toList)) (hurl : cfg.url.isSome) :
    checkConfig i e = [VError.missingField i (("territoryId").toList)] := by
  rw [checkConfig_eq]
  simp [ht, hid, hname, hspider, hstart, hcfg, hcty, hurl]

/-- Errors of a concatenated batch: the suffix is validated after the
prefix, with indices shifted by the prefix length. -/
theorem validateFrom_append (pre : List PyEntry) (j : Nat) (post : List PyEntry) :
    validateFrom j (pre ++ post) =
      validateFrom j pre ++ validateFrom (j + pre.length) post := by
  induction pre generalizing j with
  | nil => simp [validateFrom]
  | cons e rest ih =>
    rw [List.cons_append, validateFrom, ih (j + 1), validateFrom,
      List.append_assoc]
    have : j + 1 + rest.length = j + (e :: rest).length := by
      simp [List.length_cons]; omega
    rw [this]

end TestSigpubConfig

namespace TestSigpubConfig

/-- Fully valid publisher config used by concrete validator inputs. -/
def cfgOk : PyCfg :=
  { type := some (("sigpub").toList)
  , url := some (("https://www.diariomunicipal.com.br/aam/").toList)
  , entityId := some (("42").toList) }

/-- Record missing only the territoryId field. -/
def eMissingTid : PyEntry :=
  { id := some (("am_1").toList)
  , name := some (("Alpha").toList)
  , territoryId := none
  , spiderType := some (("sigpub").toList)
  , startDate := some (("2024-01-01").toList)
  , config := some cfgOk }

/-- C9: a record missing territoryId, with every other required field
present and valid, produces exactly one validation error, which is the
missing-field error for territoryId at the index of that record; and the
batch keeps being validated: the errors of a surrounding batch are the
errors of the prefix, that single error, then the errors of the suffix at
shifted indices. -/
theorem validator_missing_tid (i j : Nat) (pre post : List PyEntry)
    (e : PyEntry) (cfg : PyCfg)
    (ht : e.territoryId = none) (hid : e.id.isSome) (hname : e.name.isSome)
    (hspider : e.spiderType = some (("sigpub").toList))
    (hstart : e.startDate.isSome) (hcfg : e.config = some cfg)
    (hcty : cfg.type = some (("sigpub").toList)) (hurl : cfg.url.isSome) :
    checkConfig i e = [VError.missingField i (("territoryId").toList)] ∧
    validateFrom j (pre ++ e :: post) =
      validateFrom j pre ++
        VError.missingField (j + pre.length) (("territoryId").toList) ::
          validateFrom (j + pre.length + 1) post := by
  refine ⟨checkConfig_missing_tid i e cfg ht hid hname hspider hstart hcfg
    hcty hurl, ?_⟩
  rw [validateFrom_append, validateFrom,
    checkConfig_missing_tid (j + pre.length) e cfg ht hid hname hspider hstart
      hcfg hcty hurl]
  simp

/-- Closed instance of the C9 theorem at a concrete record and batch. -/
theorem validator_missing_tid_witness :
    checkConfig 0 eMissingTid =
      [VError.missingField 0 (("territoryId").toList)] ∧
    validateFrom 0 ([] ++ eMissingTid :: []) =
      validateFrom 0 [] ++
        VError.missingField (0 + ([] : List PyEntry).length)
          (("territoryId").toList) :: validateFrom (0 + ([] : List PyEntry).length + 1) [] :=
  validator_missing_tid 0 0 [] [] eMissingTid cfgOk rfl rfl rfl rfl rfl rfl rfl rfl

/-- Publisher config lacking the type key, used by the C7 counterexample. -/
def cfgNoType : PyCfg :=
  { type := none
  , url := some (("https://www.diariomunicipal.com.br/aam/").toList)
  , entityId := some (("42").toList) }

/-- Record satisfying every condition the specification lists for a valid
entry (five fields present, seven-digit territoryId string, config.url and
the sigpub addressing field entityId present) while missing startDate and
config.type. -/
def eSpecValid : PyEntry :=
  { id := some (("pr_4106902").toList)
  , name := some (("Curitiba").toList)
  , territoryId := some (PyVal.str (("4106902").toList))
  , spiderType := some (("sigpub").toList)
  , startDate := none
  , config := some cfgNoType }

/-- C7 counterexample: a record with the five spec-required fields, a
seven-digit territoryId, config.url and entityId present is still
rejected, because the validator additionally demands startDate and
config.type equal to sigpub. -/
theorem validator_rejects_spec_schema :
    eSpecValid.id.isSome ∧ eSpecValid.name.isSome ∧
    eSpecValid.territoryId = some (PyVal.str (("4106902").toList)) ∧
    (("4106902").toList).length = 7 ∧
    (∀ c ∈ ("4106902").toList, c.isDigit = true) ∧
    eSpecValid.spiderType = some (("sigpub").toList) ∧
    eSpecValid.config = some cfgNoType ∧ cfgNoType.url.isSome ∧
    cfgNoType.entityId.isSome ∧
    checkConfig 0 eSpecValid ≠ [] := by decide

/-- C7 (amended): the validator accepts exactly the checks the script
performs: a record with id, name, territoryId, spiderType, startDate and
config all present, territoryId a string of exactly seven digits,
spiderType equal to sigpub, config.type equal to sigpub, config.url
present (and the sigpub addressing field entityId present) yields no
validation error. -/
theorem validator_accepts_complete (i : Nat) (e : PyEntry) (s : List Char)
    (cfg : PyCfg) (hid : e.id.isSome) (hname : e.name.isSome)
    (htid : e.territoryId = some (PyVal.str s)) (hlen : s.length = 7)
    (hdig : ∀ c ∈ s, c.isDigit = true)
    (hspider : e.spiderType = some (("sigpub").toList))
    (hstart : e.startDate.isSome) (hcfg : e.config = some cfg)
    (hcty : cfg.type = some (("sigpub").toList)) (hurl : cfg.url.isSome)
    (hent : cfg.entityId.isSome) :
    checkConfig i e = [] := by
  rw [checkConfig_eq]
  simp [hid, hname, htid, hspider, hstart, hcfg, hcty, hurl, tidOk, hlen]

/-- Record passing every check of the validator. -/
def eComplete : PyEntry :=
  { id := some (("pr_4106902").toList)
  , name := some (("Curitiba").toList)
  , territoryId := some (PyVal.str (("4106902").toList))
  , spiderType := some (("sigpub").toList)
  , startDate := some (("2024-01-01").toList)
  , config := some cfgOk }

/-- Closed instance of the amended C7 at a concrete record. -/
theorem validator_accepts_complete_witness : checkConfig 0 eComplete = [] :=
  validator_accepts_complete 0 eComplete (("4106902").toList) cfgOk rfl rfl rfl
    (by decide) (by decide) rfl rfl rfl rfl rfl rfl

/-- Record whose territoryId is a seven-character string that contains
letters; every other check passes. -/
def eLetters : PyEntry :=
  { id := some (("ba_abc").toList)
  , name := some (("Beta").toList)
  , territoryId := some (PyVal.str (("abcdefg").toList))
  , spiderType := some (("sigpub").toList)
  , startDate := some (("2024-01-01").toList)
  , config := some cfgOk }

/-- C8 counterexample: a territoryId of seven letters is not a string of
seven digits, yet the validator emits no error at all for the record -
the code checks only that the value is a string of length seven. -/
theorem validator_accepts_letter_tid :
    eLetters.territoryId = some (PyVal.str (("abcdefg").toList)) ∧
    (("abcdefg").toList).length = 7 ∧
    ¬(∀ c ∈ ("abcdefg").toList, c.isDigit = true) ∧
    checkConfig 0 eLetters = [] := by decide

/-- C8 (amended): when territoryId is present but is not a string of
length exactly seven (for any string value the length differs from seven,
and any non-string value fails), the validator emits the invalid
territoryId error, which references the territoryId field, for that
record. -/
theorem validator_flags_bad_tid (i : Nat) (e : PyEntry) (v : PyVal)
    (hv : e.territoryId = some v)
    (hbad : ∀ s, v = PyVal.str s → s.length ≠ 7) :
    VError.invalidTerritoryId i e.id v ∈ checkConfig i e ∧
    refersTid (VError.invalidTerritoryId i e.id v) = true := by
  have htid : tidOk v = false := by
    cases v with
    | str s => simpa [tidOk] using hbad s rfl
    | int n => rfl
  refine ⟨?_, rfl⟩
  rw [checkConfig_eq, hv]
  simp [htid]

/-- Record whose territoryId is a three-character string. -/
def eShortTid : PyEntry :=
  { id := some (("ba_123").toList)
  , name := some (("Gamma").toList)
  , territoryId := some (PyVal.str (("123").toList))
  , spiderType := some (("sigpub").toList)
  , startDate := some (("2024-01-01").toList)
  , config := some cfgOk }

/-- Closed instance of the amended C8 at a concrete record. -/
theorem validator_flags_bad_tid_witness :
    VError.invalidTerritoryId 0 eShortTid.id (PyVal.str (("123").toList)) ∈
      checkConfig 0 eShortTid :=
  (validator_flags_bad_tid 0 eShortTid (PyVal.str (("123").toList)) rfl
    (by intro s hs; cases hs; decide)).1

end TestSigpubConfig

namespace CreateAgm

/-- Closed form of the AGM matching loop: matched rows and unmatched names
are the two filterMap images of the source list. -/
theorem agm_matchRun_eq (dict : List (List Char × Municipio)) (src : List AgmMun) :
    matchRun dict src =
      (src.filterMap (fun m => (dict.lookup (normalize_name m.nome)).map
          (fun mi => (⟨m.nome, mi.nome, mi.codigo_ibge, m.value⟩ : MatchedRow))),
       src.filterMap (fun m =>
          match dict.lookup (normalize_name m.nome) with
          | some _ => none
          | none => some m.nome)) := by
  induction src with
  | nil => rfl
  | cons m rest ih =>
    cases h : dict.lookup (normalize_name m.nome) <;>
      simp [matchRun, h, ih, List.filterMap_cons]

end CreateAgm

namespace CreateDiarioBa

/-- Closed form of the Diario-BA matching loop. -/
theorem ba_matchRun_eq (dict : List (List Char × IbgeInfo)) (site : List SiteMun) :
    matchRun dict site =
      (site.filterMap (fun mun => (dict.lookup (normalize_name mun.text)).map
          (fun info => mkConfig info mun)),
       site.filterMap (fun mun =>
          match dict.lookup (normalize_name mun.text) with
          | some _ => none
          | none => some mun.text)) := by
  induction site with
  | nil => rfl
  | cons mun rest ih =>
    cases h : dict.lookup (normalize_name mun.text) <;>
      simp [matchRun, h, ih, List.filterMap_cons]

end CreateDiarioBa

/-- C2: the matcher partitions its input exactly, in both matcher scripts.
Every source entry whose normalized key is found in the index yields its
matched row (or synthesized record) in the matched output, every entry
whose key is missing lands verbatim in the unmatched output, and every
synthesized configuration record originates from a source entry whose key
was found - so unmatched entries are excluded from all downstream
synthesis. -/
theorem matcher_partitions_exactly :
    (∀ (dict : List (List Char × Municipio)) (src : List CreateAgm.AgmMun),
      (∀ m ∈ src,
        (∀ mi, dict.lookup (CreateAgm.normalize_name m.nome) = some mi →
          (⟨m.nome, mi.nome, mi.codigo_ibge, m.value⟩ : CreateAgm.MatchedRow) ∈
            (CreateAgm.matchRun dict src).1) ∧
        (dict.lookup (CreateAgm.normalize_name m.nome) = none →
          m.nome ∈ (CreateAgm.matchRun dict src).2)) ∧
      (∀ cfg ∈ CreateAgm.sigpub_config (CreateAgm.matchRun dict src).1,
        ∃ m ∈ src, ∃ mi,
          dict.lookup (CreateAgm.normalize_name m.nome) = some mi ∧
          cfg = CreateAgm.mkConfig ⟨m.nome, mi.nome, mi.codigo_ibge, m.value⟩)) ∧
    (∀ (dict : List (List Char × CreateDiarioBa.IbgeInfo))
        (site : List CreateDiarioBa.SiteMun),
      (∀ mun ∈ site,
        (∀ info, dict.lookup (CreateDiarioBa.normalize_name mun.text) = some info →
          CreateDiarioBa.mkConfig info mun ∈ (CreateDiarioBa.matchRun dict site).1) ∧
        (dict.lookup (CreateDiarioBa.normalize_name mun.text) = none →
          mun.text ∈ (CreateDiarioBa.matchRun dict site).2)) ∧
      (∀ cfg ∈ (CreateDiarioBa.matchRun dict site).1,
        ∃ mun ∈ site, ∃ info,
          dict.lookup (CreateDiarioBa.normalize_name mun.text) = some info ∧
          cfg = CreateDiarioBa.mkConfig info mun)) := by
  constructor
  · intro dict src
    constructor
    · intro m hm
      constructor
      · intro mi hlk
        rw [CreateAgm.agm_matchRun_eq]
        exact List.mem_filterMap.mpr ⟨m, hm, by rw [hlk]; rfl⟩
      · intro hlk
        rw [CreateAgm.agm_matchRun_eq]
        exact List.mem_filterMap.mpr ⟨m, hm, by rw [hlk]⟩
    · intro cfg hcfg
      rw [CreateAgm.sigpub_config] at hcfg
      obtain ⟨row, hrow, hc⟩ := List.mem_map.mp hcfg
      rw [List.mem_mergeSort, CreateAgm.agm_matchRun_eq] at hrow
      obtain ⟨m, hm, hf⟩ := List.mem_filterMap.mp hrow
      cases hlk : dict.lookup (CreateAgm.normalize_name m.nome) with
      | none => rw [hlk] at hf; exact absurd hf (by simp)
      | some mi =>
        rw [hlk] at hf
        refine ⟨m, hm, mi, hlk, ?_⟩
        rw [← hc]
        congr 1
        exact (Option.some_inj.mp hf).symm
  · intro dict site
    constructor
    · intro mun hm
      constructor
      · intro info hlk
        rw [CreateDiarioBa.ba_matchRun_eq]
        exact List.mem_filterMap.mpr ⟨mun, hm, by rw [hlk]; rfl⟩
      · intro hlk
        rw [CreateDiarioBa.ba_matchRun_eq]
        exact List.mem_filterMap.mpr ⟨mun, hm, by rw [hlk]⟩
    · intro cfg hcfg
      rw [CreateDiarioBa.ba_matchRun_eq] at hcfg
      obtain ⟨mun, hm, hf⟩ := List.mem_filterMap.mp hcfg
      cases hlk : dict.lookup (CreateDiarioBa.normalize_name mun.text) with
      | none => rw [hlk] at hf; exact absurd hf (by simp)
      | some info =>
        rw [hlk] at hf
        exact ⟨mun, hm, info, hlk, (Option.some_inj.mp hf).symm⟩

/-- Concrete registry record for the C2 witness. -/
def witMunicipio : Municipio := ⟨("Rio Branco").toList, 1200401, 52⟩

/-- Concrete dictionary for the C2 witness. -/
def witDict : List (List Char × Municipio) :=
  CreateAgm.municipios_go_dict [witMunicipio]

/-- Concrete source list for the C2 witness: one matching entry (differing
only in case) and one unmatched entry. -/
def witSrc : List CreateAgm.AgmMun :=
  [⟨("RIO BRANCO").toList, ("55").toList⟩, ⟨("Xanadu").toList, ("9").toList⟩]

/-- Closed instance of C2: at the concrete index and source list the
case-differing entry is matched to the registry record and the unknown
entry appears in unmatched. -/
theorem matcher_partitions_exactly_witness :
    (⟨("RIO BRANCO").toList, ("Rio Branco").toList, 1200401,
      ("55").toList⟩ : CreateAgm.MatchedRow) ∈
        (CreateAgm.matchRun witDict witSrc).1 ∧
    ("Xanadu").toList ∈ (CreateAgm.matchRun witDict witSrc).2 := by
  have h := matcher_partitions_exactly.1 witDict witSrc
  constructor
  · exact (h.1 ⟨("RIO BRANCO").toList, ("55").toList⟩ (by decide)).1
      witMunicipio (by decide)
  · exact (h.1 ⟨("Xanadu").toList, ("9").toList⟩ (by decide)).2 (by decide)

/-- Join of a single word. -/
theorem pyJoin_singleton (w : List Char) : pyJoin [w] = w := rfl

/-- Join of at least two words. -/
theorem pyJoin_cons_cons (w x : List Char) (t : List (List Char)) :
    pyJoin (w :: x :: t) = w ++ ' ' :: pyJoin (x :: t) := rfl

/-- Words produced by the split worker are nonempty, whitespace-free, and
drawn from the input characters (or the accumulator). -/
theorem pySplitAux_words :
    ∀ (s acc : List Char), (∀ c ∈ acc, isPySpace c = false) →
      ∀ w ∈ pySplitAux s acc,
        w ≠ [] ∧ ∀ c ∈ w, isPySpace c = false ∧ (c ∈ s ∨ c ∈ acc) := by
  intro s
  induction s with
  | nil =>
    intro acc hacc w hw
    rw [pySplitAux] at hw
    by_cases h : acc = []
    · rw [if_pos h] at hw
      exact absurd hw (List.not_mem_nil w)
    · rw [if_neg h] at hw
      rcases List.mem_singleton.mp hw with rfl
      refine ⟨by simpa using h, fun c hc => ?_⟩
      have hm := List.mem_reverse.mp hc
      exact ⟨hacc c hm, Or.inr hm⟩
  | cons c₀ cs ih =>
    intro acc hacc w hw
    rw [pySplitAux] at hw
    by_cases hsp : isPySpace c₀
    · rw [if_pos hsp] at hw
      by_cases h : acc = []
      · rw [if_pos h] at hw
        obtain ⟨hne, hall⟩ := ih [] (by simp) w hw
        refine ⟨hne, fun c hc => ?_⟩
        obtain ⟨h1, h2⟩ := hall c hc
        rcases h2 with h2 | h2
        · exact ⟨h1, Or.inl (List.mem_cons_of_mem _ h2)⟩
        · exact absurd h2 (List.not_mem_nil c)
      · rw [if_neg h] at hw
        rcases List.mem_cons.mp hw with rfl | hw₂
        · refine ⟨by simpa using h, fun c hc => ?_⟩
          have hm := List.mem_reverse.mp hc
          exact ⟨hacc c hm, Or.inr hm⟩
        · obtain ⟨hne, hall⟩ := ih [] (by simp) w hw₂
          refine ⟨hne, fun c hc => ?_⟩
          obtain ⟨h1, h2⟩ := hall c hc
          rcases h2 with h2 | h2
          · exact ⟨h1, Or.inl (List.mem_cons_of_mem _ h2)⟩
          · exact absurd h2 (List.not_mem_nil c)
    · rw [if_neg hsp] at hw
      have hacc₂ : ∀ c ∈ c₀ :: acc, isPySpace c = false := by
        intro c hc
        rcases List.mem_cons.mp hc with rfl | hc₂
        · simpa using hsp
        · exact hacc c hc₂
      obtain ⟨hne, hall⟩ := ih (c₀ :: acc) hacc₂ w hw
      refine ⟨hne, fun c hc => ?_⟩
      obtain ⟨h1, h2⟩ := hall c hc
      rcases h2 with h2 | h2
      · exact ⟨h1, Or.inl (List.mem_cons_of_mem _ h2)⟩
      · rcases List.mem_cons.mp h2 with rfl | h3
        · exact ⟨h1, Or.inl (List.mem_cons_self _ _)⟩
        · exact ⟨h1, Or.inr h3⟩

/-- Splitting a string that starts with a whitespace-free word reads the
whole word into the accumulator. -/
theorem pySplitAux_word_prefix :
    ∀ (w t acc : List Char), (∀ c ∈ w, isPySpace c = false) →
      pySplitAux (w ++ t) acc = pySplitAux t (w.reverse ++ acc) := by
  intro w
  induction w with
  | nil => intro t acc _; simp
  | cons c w' ih =>
    intro t acc h
    rw [List.cons_append, pySplitAux,
      if_neg (by simpa using h c (List.mem_cons_self _ _))]
    rw [ih t (c :: acc) (fun d hd => h d (List.mem_cons_of_mem _ hd))]
    simp

/-- Splitting the single-space join of nonempty whitespace-free words
recovers exactly those words. -/
theorem pySplit_pyJoin :
    ∀ ws : List (List Char),
      (∀ w ∈ ws, w ≠ [] ∧ ∀ c ∈ w, isPySpace c = false) →
      pySplit (pyJoin ws) = ws := by
  intro ws
  induction ws with
  | nil => intro h; rfl
  | cons w ws' ih =>
    intro h
    obtain ⟨hne, hns⟩ := h w (List.mem_cons_self _ _)
    cases ws' with
    | nil =>
      show pySplitAux (pyJoin [w]) [] = [w]
      rw [pyJoin_singleton, ← List.append_nil w,
        pySplitAux_word_prefix w [] [] hns]
      rw [pySplitAux, List.append_nil, List.append_nil]
      rw [if_neg (by simpa using hne), List.reverse_reverse]
    | cons x t =>
      show pySplitAux (pyJoin (w :: x :: t)) [] = w :: x :: t
      rw [pyJoin_cons_cons, pySplitAux_word_prefix w (' ' :: pyJoin (x :: t)) [] hns]
      rw [pySplitAux, if_pos (by decide), List.append_nil,
        if_neg (by simpa using hne), List.reverse_reverse]
      exact congrArg (w :: ·) (ih (fun v hv => h v (List.mem_cons_of_mem _ hv)))

/-- Every character of a join is a separator space or a word character. -/
theorem mem_pyJoin {c : Char} :
    ∀ ws : List (List Char), c ∈ pyJoin ws → c = ' ' ∨ ∃ w ∈ ws, c ∈ w := by
  intro ws
  induction ws with
  | nil => intro h; rw [pyJoin] at h; exact absurd h (List.not_mem_nil c)
  | cons w ws' ih =>
    cases ws' with
    | nil =>
      intro h
      rw [pyJoin_singleton] at h
      exact Or.inr ⟨w, List.mem_cons_self _ _, h⟩
    | cons x t =>
      intro h
      rw [pyJoin_cons_cons] at h
      rcases List.mem_append.mp h with h1 | h2
      · exact Or.inr ⟨w, List.mem_cons_self _ _, h1⟩
      · rcases List.mem_cons.mp h2 with rfl | h3
        · exact Or.inl rfl
        · rcases ih h3 with h4 | ⟨w', hw', hc⟩
          · exact Or.inl h4
          · exact Or.inr ⟨w', List.mem_cons_of_mem _ hw', hc⟩

/-- Characters fixed by every stage of the uppercase normalization
pipeline. -/
def UStable (c : Char) : Prop :=
  nfdChar c = [c] ∧ isMn c = false ∧ pyUpper c = c ∧ keepUpper c = true

/-- No NFD table key is an ASCII uppercase letter or digit. -/
theorem nfdTable_keys_not_alnum :
    ∀ p ∈ nfdTable, (p.1.isUpper || p.1.isDigit) = false := by decide

/-- No combining mark is an ASCII uppercase letter or digit. -/
theorem mnChars_not_alnum :
    ∀ c ∈ mnChars, (c.isUpper || c.isDigit) = false := by decide

/-- No upper-case table key is an ASCII uppercase letter or digit. -/
theorem upperTable_keys_not_alnum :
    ∀ p ∈ upperTable, (p.1.isUpper || p.1.isDigit) = false := by decide

/-- An ASCII uppercase letter or digit is fixed by every stage of the
uppercase pipeline. -/
theorem ustable_of_keep_nonspace {c : Char} (hk : keepUpper c = true)
    (hs : isPySpace c = false) : UStable c := by
  have halnum : (c.isUpper || c.isDigit) = true := by
    rw [keepUpper, hs] at hk
    simpa using hk
  refine ⟨?_, ?_, ?_, hk⟩
  · rw [nfdChar, lookup_eq_none_of (fun p hp he => ?_)]
    rw [← he] at halnum
    rw [nfdTable_keys_not_alnum p hp] at halnum
    cases halnum
  · rw [isMn, decide_eq_false_iff_not]
    intro hmem
    rw [mnChars_not_alnum c hmem] at halnum
    cases halnum
  · rw [pyUpper, lookup_eq_none_of (fun p hp he => ?_)]
    rw [← he] at halnum
    rw [upperTable_keys_not_alnum p hp] at halnum
    cases halnum

/-- The separator space is fixed by every stage of the uppercase
pipeline. -/
theorem ustable_space : UStable ' ' := by
  refine ⟨rfl, rfl, rfl, rfl⟩

/-- Character stage of the uppercase normalization: NFD, strip Mn,
uppercase, keep A-Z 0-9 and whitespace. -/
def upperStage (s : List Char) : List Char :=
  (((s.flatMap nfdChar).filter (fun c => !isMn c)).map pyUpper).filter keepUpper

/-- The uppercase normalize_name is the whitespace pass after the
character stage. -/
theorem normalize_name_as_stage (s : List Char) :
    CreateAmmMt.normalize_name s = pyJoin (pySplit (upperStage s)) := rfl

/-- The character stage fixes strings of stage-stable characters. -/
theorem upperStage_id {t : List Char} (h : ∀ c ∈ t, UStable c) :
    upperStage t = t := by
  have h1 : t.flatMap nfdChar = t := flatMap_id_of (fun c hc => (h c hc).1)
  have h2 : t.filter (fun c => !isMn c) = t :=
    List.filter_eq_self.mpr (fun c hc => by simp [(h c hc).2.1])
  have h3 : t.map pyUpper = t := map_id_of (fun c hc => (h c hc).2.2.1)
  have h4 : t.filter keepUpper = t :=
    List.filter_eq_self.mpr (fun c hc => (h c hc).2.2.2)
  rw [upperStage, h1, h2, h3, h4]

/-- Every character of an uppercase-normalized string is stage-stable. -/
theorem normalized_chars_ustable (s : List Char) :
    ∀ c ∈ CreateAmmMt.normalize_name s, UStable c := by
  intro c hc
  rw [normalize_name_as_stage] at hc
  rcases mem_pyJoin _ hc with rfl | ⟨w, hw, hcw⟩
  · exact ustable_space
  · obtain ⟨-, hall⟩ := pySplitAux_words (upperStage s) [] (by simp) w hw
    obtain ⟨hns, hmem⟩ := hall c hcw
    rcases hmem with hmem | hmem
    · exact ustable_of_keep_nonspace (List.mem_filter.mp hmem).2 hns
    · exact absurd hmem (List.not_mem_nil c)

/-- Idempotence of the uppercase normalization. -/
theorem upper_idem (n : List Char) :
    CreateAmmMt.normalize_name (CreateAmmMt.normalize_name n) =
      CreateAmmMt.normalize_name n := by
  have hws := pySplitAux_words (upperStage n) [] (by simp)
  have hwords : ∀ w ∈ pySplit (upperStage n),
      w ≠ [] ∧ ∀ c ∈ w, isPySpace c = false :=
    fun w hw => ⟨(hws w hw).1, fun c hc => ((hws w hw).2 c hc).1⟩
  calc CreateAmmMt.normalize_name (CreateAmmMt.normalize_name n)
      = pyJoin (pySplit (upperStage (CreateAmmMt.normalize_name n))) := rfl
    _ = pyJoin (pySplit (CreateAmmMt.normalize_name n)) := by
        rw [upperStage_id (normalized_chars_ustable n)]
    _ = pyJoin (pySplit (pyJoin (pySplit (upperStage n)))) := rfl
    _ = pyJoin (pySplit (upperStage n)) := by rw [pySplit_pyJoin _ hwords]
    _ = CreateAmmMt.normalize_name n := rfl

/-- A string has no leading whitespace. -/
def noLead : List Char → Bool
  | [] => true
  | c :: _ => !isPySpace c

/-- A string has no trailing whitespace. -/
def endsOk : List Char → Bool
  | [] => true
  | [c] => !isPySpace c
  | _ :: c :: cs => endsOk (c :: cs)

/-- Every whitespace character of a string is a plain space followed by a
non-whitespace character (or the end). -/
def spacesOk : List Char → Bool
  | [] => true
  | [c] => !isPySpace c || c = ' '
  | a :: b :: cs =>
    (if isPySpace a then a = ' ' && !isPySpace b else true) && spacesOk (b :: cs)

/-- Dropping leading whitespace leaves no leading whitespace. -/
theorem noLead_dropWhile (s : List Char) :
    noLead (s.dropWhile isPySpace) = true := by
  induction s with
  | nil => rfl
  | cons c cs ih =>
    by_cases h : isPySpace c
    · rw [List.dropWhile_cons_of_pos h]; exact ih
    · rw [List.dropWhile_cons_of_neg h, noLead]
      simpa using h

/-- The trailing strip keeps the head (or empties the string). -/
theorem rstrip_shape (c : Char) (cs : List Char) :
    rstrip (c :: cs) = [] ∨ ∃ r, rstrip (c :: cs) = c :: r := by
  rw [rstrip]
  cases h : rstrip cs with
  | nil =>
    by_cases hs : isPySpace c
    · exact Or.inl (by rw [if_pos hs])
    · exact Or.inr ⟨[], by rw [if_neg hs]⟩
  | cons x xs => exact Or.inr ⟨x :: xs, rfl⟩

/-- The trailing strip preserves absence of leading whitespace. -/
theorem noLead_rstrip {s : List Char} (h : noLead s = true) :
    noLead (rstrip s) = true := by
  cases s with
  | nil => rfl
  | cons c cs =>
    rcases rstrip_shape c cs with hr | ⟨r, hr⟩
    · rw [hr]; rfl
    · rw [hr, noLead]
      rw [noLead] at h
      exact h

/-- The trailing strip leaves no trailing whitespace. -/
theorem endsOk_rstrip (s : List Char) : endsOk (rstrip s) = true := by
  induction s with
  | nil => rfl
  | cons c cs ih =>
    rw [rstrip]
    cases h : rstrip cs with
    | nil =>
      by_cases hs : isPySpace c
      · rw [if_pos hs]; rfl
      · rw [if_neg hs, endsOk]; simpa using hs
    | cons x xs =>
      rw [h] at ih
      rw [endsOk]
      exact ih

/-- A string with no trailing whitespace collapses to a nonempty string
when it is nonempty. -/
theorem collapseAux_ne_nil {s : List Char} (h : endsOk s = true) (hne : s ≠ []) :
    ∀ b, collapseAux b s ≠ [] := by
  induction s with
  | nil => exact absurd rfl hne
  | cons c cs ih =>
    intro b
    cases cs with
    | nil =>
      have hc : isPySpace c = false := by
        rw [endsOk] at h; simpa using h
      rw [collapseAux, if_neg (by simp [hc])]
      simp
    | cons d ds =>
      rw [endsOk] at h
      by_cases hs : isPySpace c
      · rw [collapseAux, if_pos hs]
        by_cases hb : b
        · subst hb; rw [if_pos rfl]; exact ih h (by simp) true
        · rw [if_neg (by simpa using hb)]; simp
      · rw [collapseAux, if_neg hs]; simp

/-- Collapsing preserves absence of trailing whitespace. -/
theorem endsOk_collapseAux {s : List Char} (h : endsOk s = true) :
    ∀ b, endsOk (collapseAux b s) = true := by
  induction s with
  | nil => intro b; rfl
  | cons c cs ih =>
    intro b
    cases cs with
    | nil =>
      have hc : isPySpace c = false := by
        rw [endsOk] at h; simpa using h
      rw [collapseAux, if_neg (by simp [hc]), collapseAux, endsOk]
      simp [hc]
    | cons d ds =>
      rw [endsOk] at h
      by_cases hs : isPySpace c
      · rw [collapseAux, if_pos hs]
        by_cases hb : b
        · subst hb; rw [if_pos rfl]; exact ih h true
        · rw [if_neg (by simpa using hb)]
          have hr := ih h true
          have hne := collapseAux_ne_nil h (by simp) true
          cases hcol : collapseAux true (d :: ds) with
          | nil => exact absurd hcol hne
          | cons x xs =>
            rw [hcol] at hr
            rw [endsOk]
            exact hr
      · rw [collapseAux, if_neg hs]
        have hr := ih h false
        have hne := collapseAux_ne_nil h (by simp) false
        cases hcol : collapseAux false (d :: ds) with
        | nil => exact absurd hcol hne
        | cons x xs =>
          rw [hcol] at hr
          rw [endsOk]
          exact hr

/-- After the flag says a space was just emitted, the collapse output
starts with a non-space (or is empty). -/
theorem noLead_collapseAux_true (s : List Char) :
    noLead (collapseAux true s) = true := by
  induction s with
  | nil => rfl
  | cons c cs ih =>
    by_cases hs : isPySpace c
    · rw [collapseAux, if_pos hs, if_pos rfl]; exact ih
    · rw [collapseAux, if_neg hs, noLead]; simpa using hs

/-- Collapse output contains only isolated plain spaces. -/
theorem spacesOk_collapseAux (s : List Char) :
    ∀ b, spacesOk (collapseAux b s) = true := by
  induction s with
  | nil => intro b; rfl
  | cons c cs ih =>
    intro b
    by_cases hs : isPySpace c
    · rw [collapseAux, if_pos hs]
      by_cases hb : b
      · subst hb; rw [if_pos rfl]; exact ih true
      · rw [if_neg (by simpa using hb)]
        have hr := ih true
        have hhead := noLead_collapseAux_true cs
        cases hcol : collapseAux true cs with
        | nil => rfl
        | cons x xs =>
          rw [hcol] at hr hhead
          rw [noLead] at hhead
          rw [spacesOk]
          simp only [hr, Bool.and_true]
          simp [hhead]
    · rw [collapseAux, if_neg hs]
      have hr := ih false
      cases hcol : collapseAux false cs with
      | nil =>
        rw [spacesOk]
        simp [hs]
      | cons x xs =>
        rw [hcol] at hr
        rw [spacesOk, if_neg hs]
        simpa using hr

/-- Collapsing preserves absence of leading whitespace. -/
theorem noLead_collapseAux {s : List Char} (h : noLead s = true) :
    noLead (collapseAux false s) = true := by
  cases s with
  | nil => rfl
  | cons c cs =>
    rw [noLead] at h
    rw [collapseAux, if_neg (by simpa using h), noLead]
    exact h

/-- Dropping leading whitespace fixes strings without any. -/
theorem dropWhile_id_of_noLead {s : List Char} (h : noLead s = true) :
    s.dropWhile isPySpace = s := by
  cases s with
  | nil => rfl
  | cons c cs =>
    rw [noLead] at h
    exact List.dropWhile_cons_of_neg (by simpa using h)

/-- The trailing strip fixes strings without trailing whitespace. -/
theorem rstrip_id_of_endsOk {s : List Char} (h : endsOk s = true) :
    rstrip s = s := by
  induction s with
  | nil => rfl
  | cons c cs ih =>
    cases cs with
    | nil =>
      have hc : isPySpace c = false := by rw [endsOk] at h; simpa using h
      rw [rstrip, rstrip, if_neg (by simp [hc])]
    | cons d ds =>
      rw [endsOk] at h
      have hr := ih h
      rw [rstrip, hr]

/-- Collapsing fixes strings whose spaces are isolated plain spaces. -/
theorem collapseAux_id_of_spacesOk {s : List Char} (h : spacesOk s = true) :
    collapseAux false s = s := by
  induction s with
  | nil => rfl
  | cons c cs ih =>
    cases cs with
    | nil =>
      rw [spacesOk] at h
      by_cases hs : isPySpace c
      · have hc : c = ' ' := by
          rcases Bool.or_eq_true_iff.mp h with h1 | h1
          · rw [hs] at h1; cases h1
          · simpa using h1
        subst hc
        rfl
      · rw [collapseAux, if_neg hs, collapseAux]
    | cons d ds =>
      rw [spacesOk] at h
      obtain ⟨h1, h2⟩ := Bool.and_eq_true_iff.mp h
      have hrec := ih h2
      by_cases hs : isPySpace c
      · rw [if_pos hs] at h1
        obtain ⟨hc, hd⟩ := Bool.and_eq_true_iff.mp h1
        have hc : c = ' ' := by simpa using hc
        have hd : isPySpace d = false := by simpa using hd
        subst hc
        have e1 : collapseAux false (' ' :: d :: ds) =
            ' ' :: collapseAux true (d :: ds) := rfl
        have e2 : collapseAux true (d :: ds) = d :: collapseAux false ds := by
          rw [collapseAux, if_neg (by simp [hd])]
        have e3 : collapseAux false (d :: ds) = d :: collapseAux false ds := by
          rw [collapseAux, if_neg (by simp [hd])]
        rw [e1, e2, ← e3, hrec]
      · rw [collapseAux, if_neg hs, hrec]

/-- Characters of the collapse output come from the input or are the
emitted space. -/
theorem mem_collapseAux {c : Char} :
    ∀ (s : List Char) (b : Bool), c ∈ collapseAux b s → c = ' ' ∨ c ∈ s := by
  intro s
  induction s with
  | nil => intro b h; exact absurd h (List.not_mem_nil c)
  | cons d ds ih =>
    intro b h
    by_cases hs : isPySpace d
    · rw [collapseAux, if_pos hs] at h
      by_cases hb : b
      · subst hb
        rw [if_pos rfl] at h
        rcases ih true h with h1 | h1
        · exact Or.inl h1
        · exact Or.inr (List.mem_cons_of_mem _ h1)
      · rw [if_neg (by simpa using hb)] at h
        rcases List.mem_cons.mp h with rfl | h1
        · exact Or.inl rfl
        · rcases ih true h1 with h2 | h2
          · exact Or.inl h2
          · exact Or.inr (List.mem_cons_of_mem _ h2)
    · rw [collapseAux, if_neg hs] at h
      rcases List.mem_cons.mp h with rfl | h1
      · exact Or.inr (List.mem_cons_self _ _)
      · rcases ih false h1 with h2 | h2
        · exact Or.inl h2
        · exact Or.inr (List.mem_cons_of_mem _ h2)

/-- Characters of the trailing strip come from the input. -/
theorem mem_rstrip {c : Char} : ∀ s : List Char, c ∈ rstrip s → c ∈ s := by
  intro s
  induction s with
  | nil => intro h; exact absurd h (List.not_mem_nil c)
  | cons d ds ih =>
    intro h
    rw [rstrip] at h
    cases hr : rstrip ds with
    | nil =>
      rw [hr] at h
      by_cases hs : isPySpace d
      · rw [if_pos hs] at h; exact absurd h (List.not_mem_nil c)
      · rw [if_neg hs] at h
        rcases List.mem_singleton.mp h with rfl
        exact List.mem_cons_self _ _
    | cons x xs =>
      rw [hr] at h
      rcases List.mem_cons.mp h with rfl | h1
      · exact List.mem_cons_self _ _
      · exact List.mem_cons_of_mem _ (ih (by rw [hr]; exact h1))

/-- Characters fixed by every stage of the lowercase normalization
pipeline. -/
def LStable (c : Char) : Prop :=
  nfkdChar c = [c] ∧ isCombining c = false ∧ pyLower c = c

/-- Boolean form of LStable, for finite-table checks. -/
def lstableB (c : Char) : Bool :=
  (nfkdTable.lookup c == none) && !isCombining c && (pyLower c == c)

/-- Every character of an NFKD decomposition is a combining mark or has a
stable lowercase image. -/
theorem nfkd_components_stable :
    ∀ p ∈ nfkdTable, ∀ d ∈ p.2, (isCombining d || lstableB (pyLower d)) = true := by
  decide

/-- Every lowercase image of a case-table key either had a decomposition
or is itself stable. -/
theorem lowerTable_targets_stable :
    ∀ p ∈ lowerTable, ((nfkdTable.lookup p.1).isSome || lstableB p.2) = true := by
  decide

/-- From the boolean stability certificate to the propositional one. -/
theorem lstableB_prop {c : Char} (h : lstableB c = true) : LStable c := by
  rw [lstableB] at h
  obtain ⟨h12, h3⟩ := Bool.and_eq_true_iff.mp h
  obtain ⟨h1, h2⟩ := Bool.and_eq_true_iff.mp h12
  have hlk : nfkdTable.lookup c = none := by simpa using h1
  refine ⟨by rw [nfkdChar, hlk], by simpa using h2, by simpa using h3⟩

/-- The lowercase image of any non-combining NFKD component is fixed by
every stage of the lowercase pipeline. -/
theorem lstable_of_component {a d : Char} (hd : d ∈ nfkdChar a)
    (hcomb : isCombining d = false) : LStable (pyLower d) := by
  rw [nfkdChar] at hd
  cases h : nfkdTable.lookup a with
  | some l =>
    rw [h] at hd
    have hcs := nfkd_components_stable (a, l) (lookup_mem h) d hd
    rcases Bool.or_eq_true_iff.mp hcs with h1 | h1
    · rw [hcomb] at h1; cases h1
    · exact lstableB_prop h1
  | none =>
    rw [h] at hd
    rcases List.mem_singleton.mp hd with rfl
    cases h2 : lowerTable.lookup d with
    | some v =>
      have hv := lowerTable_targets_stable (d, v) (lookup_mem h2)
      rcases Bool.or_eq_true_iff.mp hv with h1 | h1
      · rw [h] at h1; simp at h1
      · have hl : pyLower d = v := by rw [pyLower, h2]
        rw [hl]; exact lstableB_prop h1
    | none =>
      have hl : pyLower d = d := by rw [pyLower, h2]
      rw [hl]
      exact ⟨by rw [nfkdChar, h], hcomb, hl⟩

/-- The separator space is fixed by every stage of the lowercase
pipeline. -/
theorem lstable_space : LStable ' ' := ⟨rfl, rfl, rfl⟩

/-- Character stage of the lowercase normalization: NFKD, strip combining
marks, lowercase. -/
def lowerStage (s : List Char) : List Char :=
  ((s.flatMap nfkdChar).filter (fun c => !isCombining c)).map pyLower

/-- The lowercase normalize_name is strip-and-collapse after the
character stage. -/
theorem domsc_as_stage (s : List Char) :
    CreateDomsc.normalize_name s = pyCollapse (pyStrip (lowerStage s)) := rfl

/-- Every character of the lowercase character stage is stage-stable. -/
theorem mem_lowerStage_stable {s : List Char} {c : Char}
    (hc : c ∈ lowerStage s) : LStable c := by
  rw [lowerStage] at hc
  obtain ⟨d, hd, rfl⟩ := List.mem_map.mp hc
  obtain ⟨hd2, hcomb⟩ := List.mem_filter.mp hd
  obtain ⟨a, -, hda⟩ := List.mem_flatMap.mp hd2
  exact lstable_of_component hda (by simpa using hcomb)

/-- The lowercase character stage fixes strings of stage-stable
characters. -/
theorem lowerStage_id {t : List Char} (h : ∀ c ∈ t, LStable c) :
    lowerStage t = t := by
  have h1 : t.flatMap nfkdChar = t := flatMap_id_of (fun c hc => (h c hc).1)
  have h2 : t.filter (fun c => !isCombining c) = t :=
    List.filter_eq_self.mpr (fun c hc => by simp [(h c hc).2.1])
  have h3 : t.map pyLower = t := map_id_of (fun c hc => (h c hc).2.2)
  rw [lowerStage, h1, h2, h3]

/-- Every character of a lowercase-normalized string is stage-stable. -/
theorem domsc_chars_lstable (s : List Char) :
    ∀ c ∈ CreateDomsc.normalize_name s, LStable c := by
  intro c hc
  rw [domsc_as_stage, pyCollapse] at hc
  rcases mem_collapseAux _ _ hc with rfl | h1
  · exact lstable_space
  · rw [pyStrip] at h1
    have h2 := mem_rstrip _ h1
    have h3 := (List.dropWhile_sublist isPySpace).subset h2
    exact mem_lowerStage_stable h3

/-- Idempotence of the lowercase normalization. -/
theorem lower_idem (n : List Char) :
    CreateDomsc.normalize_name (CreateDomsc.normalize_name n) =
      CreateDomsc.normalize_name n := by
  have hnl : noLead (CreateDomsc.normalize_name n) = true :=
    noLead_collapseAux (noLead_rstrip (noLead_dropWhile _))
  have heo : endsOk (CreateDomsc.normalize_name n) = true :=
    endsOk_collapseAux (endsOk_rstrip _) false
  have hso : spacesOk (CreateDomsc.normalize_name n) = true :=
    spacesOk_collapseAux _ false
  calc CreateDomsc.normalize_name (CreateDomsc.normalize_name n)
      = pyCollapse (pyStrip (lowerStage (CreateDomsc.normalize_name n))) := rfl
    _ = pyCollapse (pyStrip (CreateDomsc.normalize_name n)) := by
        rw [lowerStage_id (domsc_chars_lstable n)]
    _ = collapseAux false (rstrip
          ((CreateDomsc.normalize_name n).dropWhile isPySpace)) := rfl
    _ = collapseAux false (rstrip (CreateDomsc.normalize_name n)) := by
        rw [dropWhile_id_of_noLead hnl]
    _ = collapseAux false (CreateDomsc.normalize_name n) := by
        rw [rstrip_id_of_endsOk heo]
    _ = CreateDomsc.normalize_name n := collapseAux_id_of_spacesOk hso

/-- C5: each of the six normalize_name functions used in the pipeline is
idempotent: normalizing an already-normalized name changes nothing. -/
theorem normalize_idempotent :
    ∀ n : List Char,
      CreateAmmMt.normalize_name (CreateAmmMt.normalize_name n) =
        CreateAmmMt.normalize_name n ∧
      CreateAam.normalize_name (CreateAam.normalize_name n) =
        CreateAam.normalize_name n ∧
      CreateDiarioBa.normalize_name (CreateDiarioBa.normalize_name n) =
        CreateDiarioBa.normalize_name n ∧
      CreateDomsc.normalize_name (CreateDomsc.normalize_name n) =
        CreateDomsc.normalize_name n ∧
      CreateAgm.normalize_name (CreateAgm.normalize_name n) =
        CreateAgm.normalize_name n ∧
      FixDomsc.normalize_name (FixDomsc.normalize_name n) =
        FixDomsc.normalize_name n :=
  fun n => ⟨upper_idem n, upper_idem n, upper_idem n, lower_idem n,
    lower_idem n, lower_idem n⟩

/-- Accent-and-case skeleton of a name, encoding the hypothesis of the
insensitivity property: two names differ only by accent (combining) marks
or by letter case exactly when their skeletons (canonical decomposition,
combining marks removed, case folded to lowercase) agree. -/
def accentCaseKey (n : List Char) : List Char :=
  ((n.flatMap nfdChar).filter (fun c => !isMn c)).map pyLower

/-- Uppercasing absorbs a preceding lowercasing, per lower-table entry. -/
theorem lowerTable_upper_consistent :
    ∀ p ∈ lowerTable, pyUpper p.2 = pyUpper p.1 := by decide

/-- Uppercasing absorbs a preceding lowercasing. -/
theorem upper_lower_fix (c : Char) : pyUpper (pyLower c) = pyUpper c := by
  cases h : lowerTable.lookup c with
  | some v =>
    have hv := lowerTable_upper_consistent (c, v) (lookup_mem h)
    rw [pyLower, h]
    exact hv
  | none => rw [pyLower, h]

/-- The uppercase normalization depends on a name only through its
accent-and-case skeleton. -/
theorem upper_key_congr {n1 n2 : List Char}
    (h : accentCaseKey n1 = accentCaseKey n2) :
    CreateAmmMt.normalize_name n1 = CreateAmmMt.normalize_name n2 := by
  have e : ∀ n : List Char,
      ((n.flatMap nfdChar).filter (fun c => !isMn c)).map pyUpper =
        (accentCaseKey n).map pyUpper := by
    intro n
    rw [accentCaseKey, List.map_map]
    exact List.map_congr_left (fun c _ => (upper_lower_fix c).symm)
  show pyJoin (pySplit (upperStage n1)) = pyJoin (pySplit (upperStage n2))
  rw [upperStage, upperStage, e n1, e n2, h]

/-- Map sending the two compatibility ordinal indicators to their NFKD
letters and fixing everything else. -/
def ordFold (c : Char) : Char :=
  if c = 'ª' then 'a' else if c = 'º' then 'o' else c

/-- NFD components have ordFold-fixed lowercase images. -/
theorem nfd_components_ordFold_fix :
    ∀ p ∈ nfdTable, ∀ d ∈ p.2, ordFold (pyLower d) = pyLower d := by decide

/-- Lowercase images of case-table keys are ordFold-fixed. -/
theorem lowerTable_ordFold_fix : ∀ p ∈ lowerTable, ordFold p.2 = p.2 := by decide

/-- Per character, the lowercase NFKD stage is the ordFold image of the
lowercase NFD stage. -/
theorem lower_component_eq (c : Char) :
    ((nfkdChar c).filter (fun d => !isCombining d)).map pyLower =
      (((nfdChar c).filter (fun d => !isMn d)).map pyLower).map ordFold := by
  by_cases hA : c = 'ª'
  · subst hA; decide
  by_cases hO : c = 'º'
  · subst hO; decide
  have hfil : ((nfdChar c).filter (fun d => !isCombining d)) =
      ((nfdChar c).filter (fun d => !isMn d)) := rfl
  have hlk : nfkdChar c = nfdChar c := by
    rw [nfkdChar, nfdChar, nfkdTable, lookup_cons_if, if_neg hA,
      lookup_cons_if, if_neg hO]
  rw [hlk, hfil]
  symm
  apply map_id_of
  intro d hd
  obtain ⟨e, he, rfl⟩ := List.mem_map.mp hd
  obtain ⟨he2, -⟩ := List.mem_filter.mp he
  rw [nfdChar] at he2
  cases h : nfdTable.lookup c with
  | some l =>
    rw [h] at he2
    exact nfd_components_ordFold_fix (c, l) (lookup_mem h) e he2
  | none =>
    rw [h] at he2
    rcases List.mem_singleton.mp he2 with rfl
    cases h2 : lowerTable.lookup e with
    | some v =>
      have hv := lowerTable_ordFold_fix (e, v) (lookup_mem h2)
      rw [pyLower, h2]
      exact hv
    | none =>
      rw [pyLower, h2, ordFold, if_neg hA, if_neg hO]

/-- The lowercase character stage is the ordFold image of the
accent-and-case skeleton. -/
theorem lowerStage_eq_ordFold_key (n : List Char) :
    lowerStage n = (accentCaseKey n).map ordFold := by
  rw [lowerStage, accentCaseKey]
  rw [List.filter_flatMap, List.map_flatMap, List.filter_flatMap,
    List.map_flatMap, List.map_flatMap]
  have hfun : (fun a => ((nfkdChar a).filter (fun d => !isCombining d)).map pyLower) =
      (fun a => (((nfdChar a).filter (fun d => !isMn d)).map pyLower).map ordFold) :=
    funext lower_component_eq
  rw [hfun]

/-- C6: both normalization families are accent- and case-insensitive: two
names that differ only by accent (combining) marks or by letter case,
that is, whose accent-and-case skeletons agree, normalize to the same key
under the uppercase family (create-amm-mt) and under the lowercase family
(create-agm). -/
theorem normalize_accent_case_insensitive (n1 n2 : List Char)
    (h : accentCaseKey n1 = accentCaseKey n2) :
    CreateAmmMt.normalize_name n1 = CreateAmmMt.normalize_name n2 ∧
    CreateAgm.normalize_name n1 = CreateAgm.normalize_name n2 := by
  constructor
  · exact upper_key_congr h
  · show CreateDomsc.normalize_name n1 = CreateDomsc.normalize_name n2
    rw [domsc_as_stage, domsc_as_stage, lowerStage_eq_ordFold_key,
      lowerStage_eq_ordFold_key, h]

/-- Closed instance of C6: an accented mixed-case name and its plain
uppercase form have equal skeletons and equal normalized keys in both
families. -/
theorem normalize_accent_case_insensitive_witness :
    accentCaseKey (("José").toList) = accentCaseKey (("JOSE").toList) ∧
    (CreateAmmMt.normalize_name (("José").toList) =
      CreateAmmMt.normalize_name (("JOSE").toList) ∧
    CreateAgm.normalize_name (("José").toList) =
      CreateAgm.normalize_name (("JOSE").toList)) :=
  ⟨by decide, normalize_accent_case_insensitive _ _ (by decide)⟩
